import Mathlib

/-!
# Wallet challenge-response authentication: shallow embedding

A shallow embedding of the wallet login subsystem of the router repository:
the in-memory nonce store (`common/walletnonce.go`), the multi-secret JWT
codec (`common/jwt_wallet.go`), and the auth handlers (`WalletLogin`,
`WalletBind`, `verifyWalletRequest`, `walletAuthenticate`,
`findOrCreateWalletUser`, `recoverAddress`, `WalletVerifyProto`).

Modelling conventions:
* time is an absolute instant `Int` (seconds); Go `time.Now().After(t)`
  becomes `now > t`;
* the Go `map[string]walletNonceValue` is an association list whose insert
  removes any earlier entry for the same key (Go map overwrite semantics);
* randomness (UUID nonces, fresh usernames/passwords) enters as explicit
  parameters;
* the external account store is a list of `User` records, its query/update
  operations embedded directly;
* the external elliptic-curve library (`accounts.TextHash`, `crypto.SigToPub`,
  `crypto.PubkeyToAddress`) is an abstract `EthCrypto` record of pure
  functions; everything the repository itself does around it (hex decoding,
  the 65-byte length check, the 27/28 recovery-id normalization, lower-casing)
  is embedded concretely;
* the external JWT library call `jwt.ParseWithClaims` is modelled by: the
  HMAC signature validates exactly when the verifying secret equals the
  signing secret, and the registered exp/nbf claims are checked against now.
-/

namespace RouterWallet

/-- Go `strings.ToLower`, restricted to ASCII as the addresses at hand are;
defined through the underlying character list. -/
def strToLower (s : String) : String :=
  String.mk (s.data.map Char.toLower)

/-- Go `strings.TrimPrefix(signature, "0x")`, specialised to the `"0x"`
marker; defined through the underlying character list. -/
def un0x (s : String) : String :=
  match s.data with
  | '0' :: 'x' :: rest => String.mk rest
  | _ => s

/-- Value of one hexadecimal digit, `none` for a non-hex character. -/
def hexDigitVal (c : Char) : Option Nat :=
  if '0' ≤ c ∧ c ≤ '9' then some (c.toNat - '0'.toNat)
  else if 'a' ≤ c ∧ c ≤ 'f' then some (c.toNat - 'a'.toNat + 10)
  else if 'A' ≤ c ∧ c ≤ 'F' then some (c.toNat - 'A'.toNat + 10)
  else none

/-- Go `hex.DecodeString` on a character list: decodes pairs of hex digits,
fails on odd length or on a non-hex digit. -/
def hexDecodeList : List Char → Option (List Nat)
  | [] => some []
  | [_] => none
  | c1 :: c2 :: rest =>
    match hexDigitVal c1, hexDigitVal c2, hexDecodeList rest with
    | some hi, some lo, some bytes => some ((hi * 16 + lo) :: bytes)
    | _, _, _ => none

/-- Go `hex.DecodeString`. -/
def hexDecode (s : String) : Option (List Nat) :=
  hexDecodeList s.data

/-- Modelled from the spec: `common.IsValidEthAddress` is not among the
provided sources; the spec requires a well-formed 20-byte hex address, i.e.
`0x` followed by 40 hexadecimal digits. -/
def isValidEthAddress (s : String) : Bool :=
  match s.data with
  | '0' :: 'x' :: rest => rest.length = 40 && rest.all (fun c => (hexDigitVal c).isSome)
  | _ => false

/-- The wallet-related configuration surface (`common/config`, populated by
`common.Init` from environment variables). -/
structure WalletConfig where
  walletLoginEnabled : Bool
  walletAllowedChains : List String
  walletAutoRegisterEnabled : Bool
  walletJWTSecret : String
  walletJWTFallbackSecrets : List String
  walletJWTExpireHours : Int
  walletNonceTTLMinutes : Int
  walletRootAllowedAddresses : List String
deriving Repr, DecidableEq

/-! ## NonceStore (`common/walletnonce.go`) -/

/-- `walletNonceValue`: one stored challenge. -/
structure WalletNonceValue where
  nonce : String
  message : String
  expireAt : Int
deriving Repr, DecidableEq

/-- The in-memory `walletNonceMap`, keyed by lower-case address. -/
abbrev NonceMap := List (String × WalletNonceValue)

/-- Go map read: first entry with the given key. -/
def mapGet : NonceMap → String → Option WalletNonceValue
  | [], _ => none
  | (k', v) :: rest, k => if k' = k then some v else mapGet rest k

/-- Go map `delete`: remove every entry with the given key. -/
def mapDelete : NonceMap → String → NonceMap
  | [], _ => []
  | (k', v) :: rest, k =>
    if k' = k then mapDelete rest k else (k', v) :: mapDelete rest k

/-- Go map write: overwrite the entry for the key. -/
def mapInsert (m : NonceMap) (k : String) (v : WalletNonceValue) : NonceMap :=
  (k, v) :: mapDelete m k

/-- `cleanupWalletNonces`: drop every entry whose expiry is strictly in the
past (`now.After(entry.ExpireAt)`). -/
def cleanupWalletNonces : NonceMap → Int → NonceMap
  | [], _ => []
  | (k, v) :: rest, now =>
    if now > v.expireAt then cleanupWalletNonces rest now
    else (k, v) :: cleanupWalletNonces rest now

/-- `getWalletNonceTTL`: configured TTL in minutes, defaulting to 10 when the
configured value is not positive; converted to seconds here. -/
def getWalletNonceTTL (cfg : WalletConfig) : Int :=
  (if cfg.walletNonceTTLMinutes ≤ 0 then 10 else cfg.walletNonceTTLMinutes) * 60

/-- `GenerateWalletNonce`: build the message, store/overwrite the challenge
under the lower-cased address, then sweep expired entries.  The random UUID
`nonce` and the RFC3339-formatted issuance timestamp `issuedAtStr` are
explicit inputs. Returns (new store, nonce, message). -/
def generateWalletNonce (cfg : WalletConfig) (m : NonceMap) (now : Int)
    (nonce : String) (address msgHead chainId issuedAtStr : String) :
    NonceMap × String × String :=
  let addr := (strToLower address)
  let message :=
    msgHead ++ "\n" ++ "Nonce: " ++ nonce ++ "\n" ++ "Address: " ++ address ++
      "\n" ++ "Issued At: " ++ issuedAtStr ++
      (if chainId ≠ "" then "\nChainId: " ++ chainId else "")
  let value : WalletNonceValue :=
    { nonce := nonce, message := message, expireAt := now + getWalletNonceTTL cfg }
  (cleanupWalletNonces (mapInsert m addr value) now, nonce, message)

/-- `GetWalletNonce`: the stored entry for the lower-cased address, treated as
absent when expired (`time.Now().After(entry.ExpireAt)`). -/
def getWalletNonce (m : NonceMap) (now : Int) (address : String) :
    Option WalletNonceValue :=
  match mapGet m (strToLower address) with
  | none => none
  | some entry => if now > entry.expireAt then none else some entry

/-- `ConsumeWalletNonce`: unconditionally delete the entry for the address. -/
def consumeWalletNonce (m : NonceMap) (address : String) : NonceMap :=
  mapDelete m (strToLower address)

/-! ## SignatureVerifier (`recoverAddress`) -/

/-- The external go-ethereum primitives, abstracted: `textHash` is
`accounts.TextHash`, and `recover` is `crypto.SigToPub` composed with
`crypto.PubkeyToAddress` and `.Hex()` (returning the checksummed address,
`none` on recovery failure). -/
structure EthCrypto where
  textHash : String → List Nat
  recover : List Nat → List Nat → Option String

inductive RecoverError
  | malformedHex
  | badLength
  | recoveryFailure
deriving Repr, DecidableEq

/-- The recovery-id normalization from `recoverAddress`:
`if raw[64] >= 27 { raw[64] -= 27 }`. -/
def fixV (raw : List Nat) : List Nat :=
  match raw.get? 64 with
  | some b => if b ≥ 27 then raw.set 64 (b - 27) else raw
  | none => raw

/-- `recoverAddress` after hex decoding: length check, recovery-id fix,
elliptic-curve recovery, lower-cased address. -/
def recoverRaw (eth : EthCrypto) (message : String) (raw : List Nat) :
    Except RecoverError String :=
  if raw.length ≠ 65 then .error .badLength
  else
    match eth.recover (eth.textHash message) (fixV raw) with
    | none => .error .recoveryFailure
    | some addrHex => .ok (strToLower addrHex)

/-- `recoverAddress(message, signature)`. -/
def recoverAddress (eth : EthCrypto) (message signature : String) :
    Except RecoverError String :=
  match hexDecode (un0x signature) with
  | none => .error .malformedHex
  | some raw => recoverRaw eth message raw

/-! ## Request validation (`verifyWalletRequest`) -/

/-- `walletLoginRequest`. -/
structure WalletLoginRequest where
  address : String
  signature : String
  nonce : String
  chainId : String
deriving Repr, DecidableEq

/-- The error classes produced by the verify/bind flows (the Go code returns
distinct message strings; each constructor stands for one of them). -/
inductive AuthError
  | malformedAddress
  | missingSignature
  | chainNotAllowed
  | nonceInvalid
  | signatureFailure
  | addressMismatch
  | unboundAddress
  | dbError
  | userDisabled
deriving Repr, DecidableEq

/-- The chain-id allow-list check inside `verifyWalletRequest`:
some configured chain, trimmed, equals the supplied chain id. -/
def chainAllowed (cfg : WalletConfig) (chainId : String) : Bool :=
  cfg.walletAllowedChains.any (fun c => decide (c.trim = chainId))

/-- `verifyWalletRequest`: address format, signature presence, chain-id
allow-list, stored challenge lookup, optional nonce comparison, signature
recovery, and address comparison — in the order of the source. -/
def verifyWalletRequest (cfg : WalletConfig) (eth : EthCrypto) (m : NonceMap)
    (now : Int) (req : WalletLoginRequest) : Except AuthError Unit :=
  if isValidEthAddress req.address = false then .error .malformedAddress
  else if req.signature = "" then .error .missingSignature
  else if 0 < cfg.walletAllowedChains.length ∧ req.chainId ≠ "" ∧
      chainAllowed cfg req.chainId = false then .error .chainNotAllowed
  else
    match getWalletNonce m now req.address with
    | none => .error .nonceInvalid
    | some entry =>
      if req.nonce ≠ "" ∧ entry.nonce ≠ req.nonce then .error .nonceInvalid
      else
        match recoverAddress eth entry.message req.signature with
        | .error _ => .error .signatureFailure
        | .ok recovered =>
          if (strToLower recovered) ≠ (strToLower req.address) then .error .addressMismatch
          else .ok ()

/-! ## AccountResolver (`findOrCreateWalletUser`, `autoCreateWalletUser`) -/

/-- Modelled from the spec: the account statuses of the external `model`
package, "an enumerated variant: {enabled, disabled/banned, deleted}". -/
inductive UserStatus
  | enabled
  | disabled
  | deleted
deriving Repr, DecidableEq

/-- Modelled from the spec: the roles of the external `model` package; only
the distinguished root role matters to this subsystem. -/
inductive UserRole
  | common
  | root
deriving Repr, DecidableEq

/-- An account record of the external account store. -/
structure User where
  id : Nat
  username : String
  displayName : String
  password : String
  role : UserRole
  status : UserStatus
  walletAddress : Option String
deriving Repr, DecidableEq

/-- Modelled from the spec: `model.IsWalletAddressAlreadyTaken` — some
account record carries this (already lower-cased) wallet address. -/
def isWalletAddressAlreadyTaken (db : List User) (addr : String) : Bool :=
  db.any (fun u => decide (u.walletAddress = some addr))

/-- Modelled from the spec: `User.FillUserByWalletAddress` — the first
account record bound to the address. -/
def fillUserByWalletAddress (db : List User) (addr : String) : Option User :=
  db.find? (fun u => decide (u.walletAddress = some addr))

/-- Modelled from the spec: `User.FillUserById`. -/
def fillUserById (db : List User) (uid : Nat) : Option User :=
  db.find? (fun u => decide (u.id = uid))

/-- Modelled from the spec: `model.DB.Model(&u).Update("wallet_address", nil)`
— clear the wallet binding of the record(s) with this id. -/
def clearWalletById (db : List User) (uid : Nat) : List User :=
  db.map (fun u => if u.id = uid then { u with walletAddress := none } else u)

/-- Modelled from the spec: `User.Update(false)` — write the record back by
primary key. -/
def updateUser (db : List User) (u : User) : List User :=
  db.map (fun v => if v.id = u.id then u else v)

/-- Modelled from the spec: the `First(&root)` query for the designated root
account. -/
def findRootUser (db : List User) : Option User :=
  db.find? (fun u => decide (u.role = .root))

/-- `isRootAllowed`: the (lower-cased) address appears in the configured
root-allowed list. -/
def isRootAllowed (cfg : WalletConfig) (addr : String) : Bool :=
  cfg.walletRootAllowedAddresses.any (fun a => decide ((strToLower a) = addr))

/-- Modelled from the spec: `Insert` assigns a fresh primary key. -/
def nextUserId (db : List User) : Nat :=
  (db.map (fun u => u.id)).foldr max 0 + 1

/-- `autoCreateWalletUser`: synthesize a new enabled common user carrying the
address; the random username and password are explicit inputs. -/
def autoCreateWalletUser (db : List User) (addr fu fp : String) :
    User × List User :=
  let u : User :=
    { id := nextUserId db, username := fu, displayName := fu, password := fp,
      role := .common, status := .enabled, walletAddress := some addr }
  (u, db ++ [u])

/-- Outcome of account resolution, carrying the possibly-updated store. -/
inductive ResolveOutcome
  | ok (u : User) (db : List User)
  | err (e : AuthError) (db : List User)
  | outOfFuel
deriving Repr, DecidableEq

/-- Number of account records bound to the address. -/
def countHolders : List User → String → Nat
  | [], _ => 0
  | u :: rest, addr =>
    (if u.walletAddress = some addr then 1 else 0) + countHolders rest addr

/-- `findOrCreateWalletUser`, with the source's unbounded self-recursion made
explicit through a fuel parameter: when the account bound to the address is
deleted, the binding is cleared and resolution retried. -/
def findOrCreateFuel (cfg : WalletConfig) (fu fp : String) :
    Nat → List User → String → ResolveOutcome
  | 0, _, _ => .outOfFuel
  | Nat.succ fuel, db, addr =>
    if isWalletAddressAlreadyTaken db addr = false then
      match (if isRootAllowed cfg addr then findRootUser db else none) with
      | some root =>
        let root' := { root with walletAddress := some addr }
        .ok root' (updateUser db root')
      | none =>
        if cfg.walletAutoRegisterEnabled then
          let p := autoCreateWalletUser db addr fu fp
          .ok p.1 p.2
        else .err .unboundAddress db
    else
      match fillUserByWalletAddress db addr with
      | none => .err .dbError db
      | some u =>
        if u.status = .deleted then
          findOrCreateFuel cfg fu fp fuel (clearWalletById db u.id) addr
        else .ok u db

/-- `findOrCreateWalletUser`: run the resolution with provably sufficient
fuel (one more than the number of records bound to the address). -/
def findOrCreateWalletUser (cfg : WalletConfig) (fu fp : String)
    (db : List User) (addr : String) : ResolveOutcome :=
  findOrCreateFuel cfg fu fp (countHolders db addr + 1) db addr

/-! ## TokenCodec (`common/jwt_wallet.go`) -/

/-- `WalletClaims`. -/
structure WalletClaims where
  userID : Nat
  walletAddress : String
  expiresAt : Int
  issuedAt : Int
  notBefore : Int
  subject : String
deriving Repr, DecidableEq

/-- A signed JWT, abstracted to its claims and the secret that signed it. -/
structure SignedToken where
  claims : WalletClaims
  secret : String
deriving Repr, DecidableEq

inductive JwtError
  | secretNotConfigured
  | signatureInvalid
  | tokenExpired
  | tokenNotYetValid
  | invalidToken
deriving Repr, DecidableEq

/-- `GenerateWalletJWT`: fails when the primary secret is empty, otherwise
signs claims carrying the user id, address, and exp/iat/nbf, with
`expiresAt = now + WalletJWTExpireHours`. -/
def generateWalletJWT (cfg : WalletConfig) (now : Int) (userID : Nat)
    (walletAddress : String) : Except JwtError (SignedToken × Int) :=
  if cfg.walletJWTSecret = "" then .error .secretNotConfigured
  else
    let expiresAt := now + cfg.walletJWTExpireHours * 3600
    .ok ({ claims :=
            { userID := userID, walletAddress := walletAddress,
              expiresAt := expiresAt, issuedAt := now, notBefore := now,
              subject := walletAddress },
           secret := cfg.walletJWTSecret }, expiresAt)

/-- Modelled from the spec: the external `jwt.ParseWithClaims` under one
secret — the HMAC signature validates exactly when the verifying secret
equals the signing secret, and the registered exp (strict `now < exp`) and
nbf (`nbf ≤ now`) claims are validated against `now`. -/
def parseWithClaims (now : Int) (tok : SignedToken) (secret : String) :
    Except JwtError WalletClaims :=
  if secret ≠ tok.secret then .error .signatureInvalid
  else if tok.claims.expiresAt ≤ now then .error .tokenExpired
  else if now < tok.claims.notBefore then .error .tokenNotYetValid
  else .ok tok.claims

/-- The loop body of `verifyWithSecrets`: skip empty secrets, return on the
first success, remember the last error. -/
def verifyLoop (now : Int) (tok : SignedToken) :
    List String → Option JwtError → Except JwtError WalletClaims
  | [], lastErr => .error (lastErr.getD .invalidToken)
  | sec :: rest, lastErr =>
    if sec = "" then verifyLoop now tok rest lastErr
    else
      match parseWithClaims now tok sec with
      | .error e => verifyLoop now tok rest (some e)
      | .ok claims => .ok claims

/-- `verifyWithSecrets`. -/
def verifyWithSecrets (now : Int) (tok : SignedToken) (secrets : List String) :
    Except JwtError WalletClaims :=
  if secrets.length = 0 then .error .secretNotConfigured
  else verifyLoop now tok secrets none

/-- `VerifyWalletJWT`: primary secret first, then the fallbacks in order. -/
def verifyWalletJWT (cfg : WalletConfig) (now : Int) (tok : SignedToken) :
    Except JwtError WalletClaims :=
  verifyWithSecrets now tok (cfg.walletJWTSecret :: cfg.walletJWTFallbackSecrets)

/-! ## AuthOrchestrator (`walletAuthenticate`, `WalletLogin`,
`WalletVerifyProto`, `WalletBind`) -/

/-- `walletAuthenticate`: validate the request, resolve/auto-create the
account, require enabled status, and only then consume the challenge.
Returns the outcome together with the nonce store and account store after
the call. -/
def walletAuthenticate (cfg : WalletConfig) (eth : EthCrypto) (now : Int)
    (req : WalletLoginRequest) (m : NonceMap) (db : List User)
    (fu fp : String) : Except AuthError User × NonceMap × List User :=
  match verifyWalletRequest cfg eth m now req with
  | .error e => (.error e, m, db)
  | .ok _ =>
    let addr := (strToLower req.address)
    match findOrCreateWalletUser cfg fu fp db addr with
    | .outOfFuel => (.error .dbError, m, db)
    | .err e db' => (.error e, m, db')
    | .ok u db' =>
      if u.status = .enabled then (.ok u, consumeWalletNonce m addr, db')
      else (.error .userDisabled, m, db')

/-- The JSON body `WalletLogin` sends back, restricted to the fields the
claims are about. -/
structure LoginResponse where
  success : Bool
  token : Option SignedToken
  tokenExpiresAt : Option Int
  user : Option User
deriving Repr, DecidableEq

/-- The `cleanUser` value built in `WalletLogin` (password omitted). -/
def cleanUser (u : User) : User :=
  { id := u.id, username := u.username, displayName := u.displayName,
    password := "", role := u.role, status := u.status,
    walletAddress := u.walletAddress }

/-- A failed `WalletLogin` / `WalletVerifyProto` response body. -/
def failResponse : LoginResponse :=
  { success := false, token := none, tokenExpiresAt := none, user := none }

/-- `WalletLogin`: feature flag, authenticate, set up the external session
(`sessionOk` abstracts `controller.SetupSession`), issue the JWT — a JWT
failure is only logged, the response still reports success and merely omits
the token — and consume the nonce once more. -/
def walletLogin (cfg : WalletConfig) (eth : EthCrypto) (now : Int)
    (req : WalletLoginRequest) (m : NonceMap) (db : List User)
    (sessionOk : Bool) (fu fp : String) :
    LoginResponse × NonceMap × List User :=
  if cfg.walletLoginEnabled = false then (failResponse, m, db)
  else
    match walletAuthenticate cfg eth now req m db fu fp with
    | (.error _, m', db') => (failResponse, m', db')
    | (.ok u, m', db') =>
      if sessionOk = false then (failResponse, m', db')
      else
        let addr := match u.walletAddress with
          | some a => (strToLower a)
          | none => ""
        match generateWalletJWT cfg now u.id addr with
        | .error _ =>
          ({ success := true, token := none, tokenExpiresAt := none,
             user := some (cleanUser u) },
           consumeWalletNonce m' (strToLower req.address), db')
        | .ok (tok, exp) =>
          ({ success := true, token := some tok, tokenExpiresAt := some exp,
             user := some (cleanUser u) },
           consumeWalletNonce m' (strToLower req.address), db')

/-- `WalletVerifyProto`: like `WalletLogin`, except a JWT generation failure
is reported as an error response, and the nonce is not consumed a second
time. -/
def walletVerifyProto (cfg : WalletConfig) (eth : EthCrypto) (now : Int)
    (req : WalletLoginRequest) (m : NonceMap) (db : List User)
    (sessionOk : Bool) (fu fp : String) :
    LoginResponse × NonceMap × List User :=
  if cfg.walletLoginEnabled = false then (failResponse, m, db)
  else
    match walletAuthenticate cfg eth now req m db fu fp with
    | (.error _, m', db') => (failResponse, m', db')
    | (.ok u, m', db') =>
      if sessionOk = false then (failResponse, m', db')
      else
        let addr := match u.walletAddress with
          | some a => (strToLower a)
          | none => ""
        match generateWalletJWT cfg now u.id addr with
        | .error _ => (failResponse, m', db')
        | .ok (tok, exp) =>
          ({ success := true, token := some tok, tokenExpiresAt := some exp,
             user := some u }, m', db')

/-- Outcomes of `WalletBind`. -/
inductive BindOutcome
  | featureDisabled
  | verifyFailed (e : AuthError)
  | notLoggedIn
  | userNotFound
  | alreadyBound
  | bound
deriving Repr, DecidableEq

/-- The tail of `WalletBind` after the already-bound checks: write the
binding to the caller's record, consume the challenge, report success. -/
def finishBind (db : List User) (user : User) (addr : String) (m : NonceMap) :
    BindOutcome × NonceMap × List User :=
  (.bound, consumeWalletNonce m addr,
   updateUser db { user with walletAddress := some addr })

/-- `WalletBind`: feature flag, request verification, session lookup
(`sessionId` abstracts `session.Get("id")`), caller lookup, the
already-taken checks (clearing a deleted owner's stale binding), then the
binding update and nonce consumption. -/
def walletBind (cfg : WalletConfig) (eth : EthCrypto) (now : Int)
    (req : WalletLoginRequest) (m : NonceMap) (db : List User)
    (sessionId : Option Nat) : BindOutcome × NonceMap × List User :=
  if cfg.walletLoginEnabled = false then (.featureDisabled, m, db)
  else
    match verifyWalletRequest cfg eth m now req with
    | .error e => (.verifyFailed e, m, db)
    | .ok _ =>
      let addr := (strToLower req.address)
      match sessionId with
      | none => (.notLoggedIn, m, db)
      | some uid =>
        match fillUserById db uid with
        | none => (.userNotFound, m, db)
        | some user =>
          if isWalletAddressAlreadyTaken db addr then
            match fillUserByWalletAddress db addr with
            | some exist =>
              if exist.status = .deleted then
                finishBind (clearWalletById db exist.id) user addr m
              else if exist.id ≠ user.id ∧
                  Option.map strToLower user.walletAddress ≠ some addr then
                (.alreadyBound, m, db)
              else finishBind db user addr m
            | none => finishBind db user addr m
          else finishBind db user addr m

/-! ## Auxiliary definitions used by the statements -/

/-- Number of stored entries under one key (a Go map holds at most one). -/
def countKey : NonceMap → String → Nat
  | [], _ => 0
  | (k', _) :: rest, k => (if k' = k then 1 else 0) + countKey rest k

/-- A secret under which `verifyLoop` can succeed on this token at this
instant: non-empty, equal to the signing secret, and the token within its
validity window. -/
def usableSecret (tok : SignedToken) (now : Int) (s : String) : Prop :=
  s ≠ "" ∧ s = tok.secret ∧ tok.claims.notBefore ≤ now ∧ now < tok.claims.expiresAt

/-- The nonce store after two successive challenge issuances for one address. -/
def twoIssuances (cfg : WalletConfig) (m : NonceMap) (now1 now2 : Int)
    (addr mh chain ia1 ia2 n1 n2 : String) : NonceMap :=
  (generateWalletNonce cfg
    (generateWalletNonce cfg m now1 n1 addr mh chain ia1).1
    now2 n2 addr mh chain ia2).1

/-! ## Concrete instances for witnesses and counterexamples -/

def addrA : String := "0xaaaaaaaaaaaaaaaaaaaaaaaaaaaaaaaaaaaaaaaa"

/-- A well-formed 65-byte signature: 130 hex zeros (recovery id byte 0). -/
def sigV0 : String := "0x" ++ String.mk (List.replicate 130 '0')

/-- The same signature with only the recovery-id byte changed to 27. -/
def sigV27 : String := "0x" ++ String.mk (List.replicate 128 '0') ++ "1b"

def rawV0 : List Nat := List.replicate 65 0

def rawV27 : List Nat := List.replicate 64 0 ++ [27]

def cfgBase : WalletConfig :=
  { walletLoginEnabled := true, walletAllowedChains := [],
    walletAutoRegisterEnabled := true, walletJWTSecret := "s1",
    walletJWTFallbackSecrets := [], walletJWTExpireHours := 2,
    walletNonceTTLMinutes := 10, walletRootAllowedAddresses := [] }

/-- A recovery oracle that recovers `addrA` (in checksum case) for every
input, standing for a context in which the supplied signature is valid. -/
def ethA : EthCrypto :=
  { textHash := fun _ => [],
    recover := fun _ _ => some "0xAAAAAAAAAAAAAAAAAAAAAAAAAAAAAAAAAAAAAAAA" }

/-- A recovery oracle recovering a fixed address, for the normalization
counterexample. -/
def ethStub : EthCrypto :=
  { textHash := fun _ => [], recover := fun _ _ => some "0xAB" }

def storeA : NonceMap :=
  [(addrA, { nonce := "n1", message := "msg", expireAt := 600 })]

def reqA : WalletLoginRequest :=
  { address := addrA, signature := sigV0, nonce := "n1", chainId := "" }

def reqEmptyNonce : WalletLoginRequest :=
  { address := addrA, signature := sigV0, nonce := "", chainId := "" }

def userCaller : User :=
  { id := 1, username := "alice", displayName := "alice", password := "p",
    role := .common, status := .enabled, walletAddress := none }

def userDeletedOwner : User :=
  { id := 2, username := "bob", displayName := "bob", password := "p",
    role := .common, status := .deleted, walletAddress := some addrA }

def dbBindW : List User := [userCaller, userDeletedOwner]

def userDeleted2 : User :=
  { id := 3, username := "carol", displayName := "carol", password := "p",
    role := .common, status := .deleted, walletAddress := some addrA }

/-- Two deleted accounts referencing the same address. -/
def dbTwoDeleted : List User := [userDeletedOwner, userDeleted2]

/-- The base configuration with no JWT secret configured at all. -/
def cfgNoSecret : WalletConfig := { cfgBase with walletJWTSecret := "" }

/-- Claims of a token issued for user 7 at time 0 with a 2-hour expiry. -/
def tokWClaims : WalletClaims :=
  { userID := 7, walletAddress := addrA, expiresAt := 7200,
    issuedAt := 0, notBefore := 0, subject := addrA }

/-- A token as issued under secret "s1" at time 0 with a 2-hour expiry. -/
def tokW : SignedToken :=
  { claims := tokWClaims, secret := "s1" }

/-- Configuration after rotation: new primary "s2", "s1" kept as fallback. -/
def cfgRot : WalletConfig :=
  { cfgBase with walletJWTSecret := "s2", walletJWTFallbackSecrets := ["s1"] }

/-- Configuration with "s1" removed from both primary and fallback. -/
def cfgRemoved : WalletConfig :=
  { cfgBase with walletJWTSecret := "s2", walletJWTFallbackSecrets := [] }

/-! ## Nonce-store lemmas -/

theorem mapGet_mapDelete_self (m : NonceMap) (k : String) :
    mapGet (mapDelete m k) k = none := by
  induction m with
  | nil => rfl
  | cons p rest ih =>
    obtain ⟨k', v⟩ := p
    by_cases h : k' = k
    · simpa [mapDelete, h] using ih
    · simp [mapDelete, h, mapGet, ih]

theorem countKey_mapDelete_self (m : NonceMap) (k : String) :
    countKey (mapDelete m k) k = 0 := by
  induction m with
  | nil => rfl
  | cons p rest ih =>
    obtain ⟨k', v⟩ := p
    by_cases h : k' = k
    · simpa [mapDelete, h] using ih
    · simp [mapDelete, h, countKey, ih]

theorem countKey_cleanup_le (m : NonceMap) (now : Int) (k : String) :
    countKey (cleanupWalletNonces m now) k ≤ countKey m k := by
  induction m with
  | nil => simp [cleanupWalletNonces, countKey]
  | cons p rest ih =>
    obtain ⟨k', v⟩ := p
    by_cases h : now > v.expireAt
    · simp only [cleanupWalletNonces, if_pos h, countKey]
      omega
    · simp only [cleanupWalletNonces, if_neg h, countKey]
      omega

theorem getWalletNonceTTL_pos (cfg : WalletConfig) : 0 < getWalletNonceTTL cfg := by
  unfold getWalletNonceTTL
  split <;> omega

theorem cleanup_cons_keep (k : String) (v : WalletNonceValue) (rest : NonceMap)
    (now : Int) (h : ¬ now > v.expireAt) :
    cleanupWalletNonces ((k, v) :: rest) now = (k, v) :: cleanupWalletNonces rest now := by
  simp [cleanupWalletNonces, h]

theorem generate_fst (cfg : WalletConfig) (m : NonceMap) (now : Int)
    (n a mh ch ia : String) :
    (generateWalletNonce cfg m now n a mh ch ia).1 =
      cleanupWalletNonces (((strToLower a),
        { nonce := n,
          message := mh ++ "\n" ++ "Nonce: " ++ n ++ "\n" ++ "Address: " ++ a ++
            "\n" ++ "Issued At: " ++ ia ++
            (if ch ≠ "" then "\nChainId: " ++ ch else ""),
          expireAt := now + getWalletNonceTTL cfg }) :: mapDelete m (strToLower a)) now := rfl

theorem countKey_generate (cfg : WalletConfig) (m : NonceMap) (now : Int)
    (n a mh ch ia : String) :
    countKey (generateWalletNonce cfg m now n a mh ch ia).1 (strToLower a) = 1 := by
  rw [generate_fst]
  have h1 : ¬ now > now + getWalletNonceTTL cfg := by
    have := getWalletNonceTTL_pos cfg; omega
  rw [cleanup_cons_keep _ _ _ _ h1]
  have h2 := countKey_cleanup_le (mapDelete m (strToLower a)) now (strToLower a)
  have h3 := countKey_mapDelete_self m (strToLower a)
  simp [countKey]
  omega

theorem getWalletNonce_cons_self (k : String) (v : WalletNonceValue)
    (rest : NonceMap) (now : Int) (a : String) (hk : (strToLower a) = k)
    (hv : ¬ now > v.expireAt) :
    getWalletNonce ((k, v) :: rest) now a = some v := by
  simp [getWalletNonce, mapGet, hk, hv]

theorem getWalletNonce_generate (cfg : WalletConfig) (m : NonceMap) (now : Int)
    (n a mh ch ia : String) :
    ∃ e, getWalletNonce (generateWalletNonce cfg m now n a mh ch ia).1 now a = some e ∧
      e.nonce = n := by
  have h1 : ¬ now > now + getWalletNonceTTL cfg := by
    have := getWalletNonceTTL_pos cfg; omega
  rw [generate_fst, cleanup_cons_keep _ _ _ _ h1]
  rw [getWalletNonce_cons_self _ _ _ _ _ rfl (by exact h1)]
  exact ⟨_, rfl, rfl⟩

theorem verify_not_ok_of_nonce_mismatch (cfg : WalletConfig) (eth : EthCrypto)
    (m : NonceMap) (now : Int) (req : WalletLoginRequest) (e : WalletNonceValue)
    (hg : getWalletNonce m now req.address = some e)
    (hn : req.nonce ≠ "") (hne : e.nonce ≠ req.nonce) :
    verifyWalletRequest cfg eth m now req ≠ .ok () := by
  unfold verifyWalletRequest
  intro h
  split at h
  · exact Except.noConfusion h
  split at h
  · exact Except.noConfusion h
  split at h
  · exact Except.noConfusion h
  split at h
  · exact Except.noConfusion h
  next entry heq =>
    rw [hg] at heq
    obtain rfl : entry = e := (Option.some.injEq _ _ ▸ heq).symm
    rw [if_pos ⟨hn, hne⟩] at h
    exact Except.noConfusion h

/-- C5: at most one live Challenge exists per address (keyed by the
lower-cased address): issuing a new challenge overwrites any prior
unconsumed Challenge, so after two successive issuances exactly one live
Challenge remains, it carries the second nonce, and the nonce from the
first issuance is no longer valid for verification. -/
theorem challenge_overwrite_unique (cfg : WalletConfig) (eth : EthCrypto)
    (m : NonceMap) (now1 now2 : Int) (addr mh chain ia1 ia2 n1 n2 : String)
    (hne : n2 ≠ n1) (hn1 : n1 ≠ "") :
    countKey (twoIssuances cfg m now1 now2 addr mh chain ia1 ia2 n1 n2) (strToLower addr) = 1 ∧
    Option.map WalletNonceValue.nonce
      (getWalletNonce (twoIssuances cfg m now1 now2 addr mh chain ia1 ia2 n1 n2) now2 addr) =
      some n2 ∧
    (∀ req : WalletLoginRequest, req.address = addr → req.nonce = n1 →
      verifyWalletRequest cfg eth
        (twoIssuances cfg m now1 now2 addr mh chain ia1 ia2 n1 n2) now2 req ≠ .ok ()) := by
  obtain ⟨e, he, hen⟩ := getWalletNonce_generate cfg
    (generateWalletNonce cfg m now1 n1 addr mh chain ia1).1 now2 n2 addr mh chain ia2
  refine ⟨countKey_generate _ _ _ _ _ _ _ _, ?_, ?_⟩
  · rw [twoIssuances, he, Option.map_some', hen]
  · intro req hra hrn
    refine verify_not_ok_of_nonce_mismatch cfg eth _ now2 req e ?_ ?_ ?_
    · rw [hra, twoIssuances]; exact he
    · rw [hrn]; exact hn1
    · rw [hen, hrn]; exact hne

/-- Witness for C5 at a concrete store and pair of nonces. -/
theorem challenge_overwrite_unique_witness :
    countKey (twoIssuances cfgBase [] 0 5 addrA "Login" "" "t1" "t2" "n1" "n2") (strToLower addrA) = 1 ∧
    Option.map WalletNonceValue.nonce
      (getWalletNonce (twoIssuances cfgBase [] 0 5 addrA "Login" "" "t1" "t2" "n1" "n2") 5 addrA) =
      some "n2" ∧
    verifyWalletRequest cfgBase ethA
      (twoIssuances cfgBase [] 0 5 addrA "Login" "" "t1" "t2" "n1" "n2") 5 reqA ≠ .ok () := by
  obtain ⟨h1, h2, h3⟩ := challenge_overwrite_unique cfgBase ethA [] 0 5 addrA "Login" ""
    "t1" "t2" "n1" "n2" (by decide) (by decide)
  exact ⟨h1, h2, h3 reqA rfl rfl⟩

/-! ## Lower-casing is idempotent (needed because the Go code lower-cases
the address again inside `ConsumeWalletNonce`) -/

theorem toNat_ofNat_valid (n : Nat) (h : n.isValidChar) :
    (Char.ofNat n).toNat = n := by
  simp [Char.ofNat, dif_pos h, Char.ofNatAux, Char.toNat, UInt32.toNat]

theorem char_toLower_eq_self (c : Char) (h : ¬(c.toNat ≥ 65 ∧ c.toNat ≤ 90)) :
    c.toLower = c := by
  simp only [Char.toLower]
  rw [if_neg h]

theorem char_toLower_not_upper (c : Char) :
    ¬(c.toLower.toNat ≥ 65 ∧ c.toLower.toNat ≤ 90) := by
  simp only [Char.toLower]
  by_cases h : c.toNat ≥ 65 ∧ c.toNat ≤ 90
  · rw [if_pos h, toNat_ofNat_valid _ (Or.inl (by omega))]
    omega
  · rw [if_neg h]
    exact h

theorem char_toLower_idem (c : Char) : c.toLower.toLower = c.toLower :=
  char_toLower_eq_self _ (char_toLower_not_upper c)

theorem strToLower_idem (s : String) : strToLower (strToLower s) = strToLower s := by
  simp only [strToLower]
  exact congrArg String.mk (by
    rw [List.map_map]
    exact List.map_congr_left (fun c _ => char_toLower_idem c))

theorem getWalletNonce_consume_lower (m : NonceMap) (now : Int) (a : String) :
    getWalletNonce (consumeWalletNonce m (strToLower a)) now a = none := by
  simp [getWalletNonce, consumeWalletNonce, strToLower_idem, mapGet_mapDelete_self]

/-! ## Inversion of a successful request verification -/

theorem verifyWalletRequest_ok_inv (cfg : WalletConfig) (eth : EthCrypto)
    (m : NonceMap) (now : Int) (req : WalletLoginRequest)
    (h : verifyWalletRequest cfg eth m now req = .ok ()) :
    isValidEthAddress req.address = true ∧ req.signature ≠ "" ∧
    ¬(0 < cfg.walletAllowedChains.length ∧ req.chainId ≠ "" ∧
        chainAllowed cfg req.chainId = false) ∧
    ∃ entry, getWalletNonce m now req.address = some entry := by
  unfold verifyWalletRequest at h
  split at h
  · exact Except.noConfusion h
  rename_i h1
  split at h
  · exact Except.noConfusion h
  rename_i h2
  split at h
  · exact Except.noConfusion h
  rename_i h3
  split at h
  · exact Except.noConfusion h
  rename_i entry heq
  exact ⟨by simpa using h1, h2, h3, entry, heq⟩

theorem verify_nonceInvalid_of_absent (cfg : WalletConfig) (eth : EthCrypto)
    (m : NonceMap) (now : Int) (req : WalletLoginRequest)
    (h1 : isValidEthAddress req.address = true)
    (h2 : req.signature ≠ "")
    (h3 : ¬(0 < cfg.walletAllowedChains.length ∧ req.chainId ≠ "" ∧
        chainAllowed cfg req.chainId = false))
    (h4 : getWalletNonce m now req.address = none) :
    verifyWalletRequest cfg eth m now req = .error .nonceInvalid := by
  unfold verifyWalletRequest
  rw [if_neg (by simp [h1]), if_neg h2, if_neg h3, h4]

/-- C1: a successful authentication finds a live Challenge and consumes it
exactly once: afterwards `GetWalletNonce` no longer finds an entry for the
address, and replaying the very same (address, signature, nonce) request
fails with NonceInvalid. -/
theorem auth_success_consumes_challenge (cfg : WalletConfig) (eth : EthCrypto)
    (now : Int) (req : WalletLoginRequest) (m : NonceMap) (db : List User)
    (fu fp : String) (u : User) (m' : NonceMap) (db' : List User)
    (h : walletAuthenticate cfg eth now req m db fu fp = (.ok u, m', db')) :
    (∃ entry, getWalletNonce m now req.address = some entry) ∧
    m' = consumeWalletNonce m (strToLower req.address) ∧
    getWalletNonce m' now req.address = none ∧
    verifyWalletRequest cfg eth m' now req = .error .nonceInvalid := by
  unfold walletAuthenticate at h
  cases hv : verifyWalletRequest cfg eth m now req with
  | error e => rw [hv] at h; simp at h
  | ok v =>
    cases v
    rw [hv] at h
    simp only at h
    obtain ⟨ha, hs, hc, entry, hg⟩ := verifyWalletRequest_ok_inv cfg eth m now req hv
    cases hf : findOrCreateWalletUser cfg fu fp db (strToLower req.address) with
    | outOfFuel => rw [hf] at h; simp at h
    | err e dbe => rw [hf] at h; simp at h
    | ok u2 db2 =>
      rw [hf] at h
      by_cases hst : u2.status = .enabled
      · simp only [if_pos hst] at h
        have hm : consumeWalletNonce m (strToLower req.address) = m' := by
          have h2 := congrArg (fun p => p.2.1) h
          simpa using h2
        refine ⟨⟨entry, hg⟩, hm.symm, ?_, ?_⟩
        · rw [← hm]
          exact getWalletNonce_consume_lower m now req.address
        · exact verify_nonceInvalid_of_absent cfg eth m' now req ha hs hc
            (by rw [← hm]; exact getWalletNonce_consume_lower m now req.address)
      · simp [if_neg hst] at h

/-- Witness for C1: a concrete successful authentication. -/
theorem auth_success_consumes_challenge_witness :
    (∃ entry, getWalletNonce storeA 0 reqA.address = some entry) ∧
    getWalletNonce (walletAuthenticate cfgBase ethA 0 reqA storeA [] "wu" "wp").2.1 0
      reqA.address = none ∧
    verifyWalletRequest cfgBase ethA
      (walletAuthenticate cfgBase ethA 0 reqA storeA [] "wu" "wp").2.1 0 reqA =
      .error .nonceInvalid := by
  obtain ⟨h1, h2, h3, h4⟩ := auth_success_consumes_challenge cfgBase ethA 0 reqA storeA []
    "wu" "wp"
    { id := 1, username := "wu", displayName := "wu", password := "wp",
      role := .common, status := .enabled, walletAddress := some addrA }
    (consumeWalletNonce storeA (strToLower reqA.address))
    [{ id := 1, username := "wu", displayName := "wu", password := "wp",
       role := .common, status := .enabled, walletAddress := some addrA }]
    (by rfl)
  exact ⟨h1, h3, h4⟩

/-- C2 (amended): every failure inside `walletAuthenticate` — malformed
address, missing signature, chain not allowed, nonce missing or mismatched,
signature recovery failure, address mismatch, account resolution failure, or
disabled account — leaves the NonceStore unchanged, so the Challenge stays
available for a retry.  A session-establishment failure in `WalletLogin`,
however, happens after the Challenge was already consumed; see the
counterexample. -/
theorem auth_failure_preserves_nonce_store (cfg : WalletConfig) (eth : EthCrypto)
    (now : Int) (req : WalletLoginRequest) (m : NonceMap) (db : List User)
    (fu fp : String) (e : AuthError)
    (h : (walletAuthenticate cfg eth now req m db fu fp).1 = .error e) :
    (walletAuthenticate cfg eth now req m db fu fp).2.1 = m := by
  unfold walletAuthenticate at h ⊢
  cases hv : verifyWalletRequest cfg eth m now req with
  | error e2 => rfl
  | ok v =>
    cases v
    rw [hv] at h
    simp only at h ⊢
    cases hf : findOrCreateWalletUser cfg fu fp db (strToLower req.address) with
    | outOfFuel => rfl
    | err e2 db2 => rfl
    | ok u2 db2 =>
      rw [hf] at h
      simp only at h ⊢
      by_cases hst : u2.status = .enabled
      · rw [if_pos hst] at h
        simp at h
      · rw [if_neg hst]

/-- Witness for the amended C2: a mismatched nonce fails and leaves the
store unchanged. -/
theorem auth_failure_preserves_nonce_store_witness :
    (walletAuthenticate cfgBase ethA 0
        { address := addrA, signature := sigV0, nonce := "bad", chainId := "" }
        storeA [] "wu" "wp").1 = .error .nonceInvalid ∧
    (walletAuthenticate cfgBase ethA 0
        { address := addrA, signature := sigV0, nonce := "bad", chainId := "" }
        storeA [] "wu" "wp").2.1 = storeA :=
  ⟨by rfl,
   auth_failure_preserves_nonce_store cfgBase ethA 0
     { address := addrA, signature := sigV0, nonce := "bad", chainId := "" }
     storeA [] "wu" "wp" .nonceInvalid (by rfl)⟩

/-- C2 counterexample: a request that authenticates but whose session
establishment fails is reported as a failure, yet the Challenge that was
live before the request has been consumed — the NonceStore did change. -/
theorem session_failure_consumes_challenge_cex :
    (walletLogin cfgBase ethA 0 reqA storeA [] false "wu" "wp").1.success = false ∧
    getWalletNonce storeA 0 reqA.address ≠ none ∧
    getWalletNonce (walletLogin cfgBase ethA 0 reqA storeA [] false "wu" "wp").2.1 0
      reqA.address = none := by
  refine ⟨rfl, by decide, rfl⟩

/-- C10: when the request's nonce field is the empty string, the comparison
with the stored Challenge nonce is skipped: given a live Challenge for the
address and a signature recovering to the requested address, verification
succeeds with only (address, signature) and is not rejected with
NonceInvalid. -/
theorem empty_nonce_skips_comparison (cfg : WalletConfig) (eth : EthCrypto)
    (m : NonceMap) (now : Int) (req : WalletLoginRequest)
    (entry : WalletNonceValue) (recovered : String)
    (hn : req.nonce = "")
    (ha : isValidEthAddress req.address = true)
    (hs : req.signature ≠ "")
    (hc : ¬(0 < cfg.walletAllowedChains.length ∧ req.chainId ≠ "" ∧
        chainAllowed cfg req.chainId = false))
    (hg : getWalletNonce m now req.address = some entry)
    (hr : recoverAddress eth entry.message req.signature = .ok recovered)
    (hm : strToLower recovered = strToLower req.address) :
    verifyWalletRequest cfg eth m now req = .ok () ∧
    verifyWalletRequest cfg eth m now req ≠ .error .nonceInvalid := by
  have hok : verifyWalletRequest cfg eth m now req = .ok () := by
    simp only [verifyWalletRequest, hg, hr]
    rw [if_neg (by simp [ha]), if_neg hs, if_neg hc, if_neg (by simp [hn]),
      if_neg (by simp [hm])]
  exact ⟨hok, by simp [hok]⟩

/-- Witness for C10 at a concrete store and request with empty nonce. -/
theorem empty_nonce_skips_comparison_witness :
    verifyWalletRequest cfgBase ethA storeA 0 reqEmptyNonce = .ok () ∧
    verifyWalletRequest cfgBase ethA storeA 0 reqEmptyNonce ≠ .error .nonceInvalid :=
  empty_nonce_skips_comparison cfgBase ethA storeA 0 reqEmptyNonce
    { nonce := "n1", message := "msg", expireAt := 600 } addrA
    rfl rfl (by decide) (by decide) rfl rfl rfl

/-- C9 (amended): the proto verify endpoint never reports success while
omitting the token: a successful `WalletVerifyProto` response carries the
token, its expiry, and the user summary.  The legacy `WalletLogin` verify
endpoint, however, reports success with the token omitted when JWT
generation fails; see the counterexample. -/
theorem proto_verify_success_has_token (cfg : WalletConfig) (eth : EthCrypto)
    (now : Int) (req : WalletLoginRequest) (m : NonceMap) (db : List User)
    (sessionOk : Bool) (fu fp : String)
    (h : (walletVerifyProto cfg eth now req m db sessionOk fu fp).1.success = true) :
    (walletVerifyProto cfg eth now req m db sessionOk fu fp).1.token.isSome = true ∧
    (walletVerifyProto cfg eth now req m db sessionOk fu fp).1.tokenExpiresAt.isSome = true ∧
    (walletVerifyProto cfg eth now req m db sessionOk fu fp).1.user.isSome = true := by
  unfold walletVerifyProto at h ⊢
  by_cases he : cfg.walletLoginEnabled = false
  · rw [if_pos he] at h
    simp [failResponse] at h
  · rw [if_neg he] at h ⊢
    rcases hw : walletAuthenticate cfg eth now req m db fu fp with ⟨res, m2, db2⟩
    cases res with
    | error e =>
      rw [hw] at h
      simp [failResponse] at h
    | ok u =>
      rw [hw] at h
      simp only at h ⊢
      by_cases hsess : sessionOk = false
      · rw [if_pos hsess] at h
        simp [failResponse] at h
      · rw [if_neg hsess] at h ⊢
        cases hj : generateWalletJWT cfg now u.id
            (match u.walletAddress with | some a => (strToLower a) | none => "") with
        | error e =>
          rw [hj] at h
          simp [failResponse] at h
        | ok p =>
          obtain ⟨tok, exp⟩ := p
          simp

/-- Witness for the amended C9: a concrete successful proto verify response
carrying the token. -/
theorem proto_verify_success_has_token_witness :
    (walletVerifyProto cfgBase ethA 0 reqA storeA [] true "wu" "wp").1.success = true ∧
    (walletVerifyProto cfgBase ethA 0 reqA storeA [] true "wu" "wp").1.token.isSome = true ∧
    (walletVerifyProto cfgBase ethA 0 reqA storeA [] true "wu" "wp").1.tokenExpiresAt.isSome = true ∧
    (walletVerifyProto cfgBase ethA 0 reqA storeA [] true "wu" "wp").1.user.isSome = true :=
  ⟨by rfl, proto_verify_success_has_token cfgBase ethA 0 reqA storeA [] true "wu" "wp" (by rfl)⟩

/-- C9 counterexample: with no JWT secret configured, the legacy
`WalletLogin` verify flow reports success while omitting the token, so the
claim that a successful verify response always contains the token is false
for this handler. -/
theorem login_success_without_token_cex :
    (walletLogin cfgNoSecret ethA 0 reqA storeA [] true "wu" "wp").1.success = true ∧
    (walletLogin cfgNoSecret ethA 0 reqA storeA [] true "wu" "wp").1.token = none :=
  ⟨rfl, rfl⟩

/-! ## JWT verification lemmas -/

theorem parseWithClaims_ok_iff (now : Int) (tok : SignedToken) (s : String)
    (c : WalletClaims) :
    parseWithClaims now tok s = .ok c ↔
      (s = tok.secret ∧ now < tok.claims.expiresAt ∧ tok.claims.notBefore ≤ now ∧
        c = tok.claims) := by
  unfold parseWithClaims
  split_ifs with h1 h2 h3
  · constructor
    · intro hh; exact hh.elim
    · rintro ⟨hs, -, -, -⟩; exact absurd hs h1
  · constructor
    · intro hh; exact hh.elim
    · rintro ⟨-, hlt, -, -⟩; exact absurd hlt (by omega)
  · constructor
    · intro hh; exact hh.elim
    · rintro ⟨-, -, hnb, -⟩; exact absurd hnb (by omega)
  · have hs : s = tok.secret := not_ne_iff.mp h1
    constructor
    · intro hh
      simp only [Except.ok.injEq] at hh
      exact ⟨hs, by omega, by omega, hh.symm⟩
    · rintro ⟨-, -, -, rfl⟩
      rfl

theorem verifyLoop_ok_claims (now : Int) (tok : SignedToken) :
    ∀ (secs : List String) (le : Option JwtError) (c : WalletClaims),
      verifyLoop now tok secs le = .ok c → c = tok.claims := by
  intro secs
  induction secs with
  | nil =>
    intro le c h
    simp [verifyLoop] at h
  | cons s rest ih =>
    intro le c h
    by_cases hs : s = ""
    · exact ih le c (by simpa [verifyLoop, hs] using h)
    · unfold verifyLoop at h
      rw [if_neg hs] at h
      cases hp : parseWithClaims now tok s with
      | error e =>
        rw [hp] at h
        exact ih (some e) c h
      | ok cl =>
        rw [hp] at h
        simp only [Except.ok.injEq] at h
        rw [← h]
        exact ((parseWithClaims_ok_iff now tok s cl).mp hp).2.2.2

theorem verifyLoop_ok_iff (now : Int) (tok : SignedToken) :
    ∀ (secs : List String) (le : Option JwtError),
      (verifyLoop now tok secs le = .ok tok.claims ↔
        ∃ s ∈ secs, usableSecret tok now s) := by
  intro secs
  induction secs with
  | nil =>
    intro le
    simp [verifyLoop]
  | cons s rest ih =>
    intro le
    by_cases hs : s = ""
    · simp only [verifyLoop]
      rw [if_pos hs, ih le]
      constructor
      · rintro ⟨x, hx, hu⟩
        exact ⟨x, List.mem_cons_of_mem _ hx, hu⟩
      · rintro ⟨x, hx, hu⟩
        rcases List.mem_cons.mp hx with rfl | hx2
        · exact absurd hs hu.1
        · exact ⟨x, hx2, hu⟩
    · unfold verifyLoop
      rw [if_neg hs]
      cases hp : parseWithClaims now tok s with
      | ok cl =>
        obtain ⟨hsec, hexp, hnb, hcl⟩ := (parseWithClaims_ok_iff now tok s cl).mp hp
        subst hcl
        constructor
        · intro _
          exact ⟨s, List.mem_cons_self s rest, hs, hsec, hnb, hexp⟩
        · intro _
          rfl
      | error e =>
        constructor
        · intro hh
          obtain ⟨x, hx, hu⟩ := (ih (some e)).mp hh
          exact ⟨x, List.mem_cons_of_mem _ hx, hu⟩
        · rintro ⟨x, hx, hu⟩
          rcases List.mem_cons.mp hx with rfl | hx2
          · have hok : parseWithClaims now tok x = .ok tok.claims :=
              (parseWithClaims_ok_iff now tok x tok.claims).mpr
                ⟨hu.2.1, hu.2.2.2, hu.2.2.1, rfl⟩
            rw [hp] at hok
            exact Except.noConfusion hok
          · exact (ih (some e)).mpr ⟨x, hx2, hu⟩

theorem verifyWithSecrets_ok_iff (now : Int) (tok : SignedToken)
    (secrets : List String) :
    verifyWithSecrets now tok secrets = .ok tok.claims ↔
      ∃ s ∈ secrets, usableSecret tok now s := by
  unfold verifyWithSecrets
  split_ifs with h
  · constructor
    · intro hh; exact hh.elim
    · rintro ⟨x, hx, -⟩
      rw [List.length_eq_zero.mp h] at hx
      exact absurd hx (List.not_mem_nil x)
  · exact verifyLoop_ok_iff now tok secrets none

theorem verifyWithSecrets_ok_claims (now : Int) (tok : SignedToken)
    (secrets : List String) (c : WalletClaims)
    (h : verifyWithSecrets now tok secrets = .ok c) : c = tok.claims := by
  unfold verifyWithSecrets at h
  split_ifs at h with h0
  exact verifyLoop_ok_claims now tok secrets none c h

theorem verifyWithSecrets_error_of_not_usable (now : Int) (tok : SignedToken)
    (secrets : List String)
    (h : ¬ ∃ s ∈ secrets, usableSecret tok now s) :
    ∃ e, verifyWithSecrets now tok secrets = .error e := by
  cases hv : verifyWithSecrets now tok secrets with
  | error e => exact ⟨e, rfl⟩
  | ok c =>
    have hc := verifyWithSecrets_ok_claims now tok secrets c hv
    subst hc
    exact absurd ((verifyWithSecrets_ok_iff now tok secrets).mp hv) h

/-- C3: `Verify` tries the primary secret first and then each fallback in
configured order, skipping empty secrets, and succeeds exactly when some
non-empty configured secret is the token's signing secret and the token is
inside its validity window, returning that token's claims; whenever no
configured secret yields a valid result — in particular after the signing
secret is removed from both the primary slot and the fallback list, or once
the token has expired — it fails.  (Applying the characterization to a
configuration with the old secret moved into the fallback list gives the
rotation property.) -/
theorem jwt_verify_rotation_order (cfg : WalletConfig) (now : Int)
    (tok : SignedToken) :
    (verifyWalletJWT cfg now tok = .ok tok.claims ↔
      (tok.secret ≠ "" ∧
        (tok.secret = cfg.walletJWTSecret ∨ tok.secret ∈ cfg.walletJWTFallbackSecrets) ∧
        tok.claims.notBefore ≤ now ∧ now < tok.claims.expiresAt)) ∧
    (∀ c, verifyWalletJWT cfg now tok = .ok c → c = tok.claims) ∧
    ((tok.secret = "" ∨
        (tok.secret ≠ cfg.walletJWTSecret ∧ tok.secret ∉ cfg.walletJWTFallbackSecrets) ∨
        tok.claims.expiresAt ≤ now ∨ now < tok.claims.notBefore) →
      ∃ e, verifyWalletJWT cfg now tok = .error e) := by
  refine ⟨?_, ?_, ?_⟩
  · rw [verifyWalletJWT, verifyWithSecrets_ok_iff]
    constructor
    · rintro ⟨x, hx, hne, rfl, hnb, hexp⟩
      exact ⟨hne, by simpa using hx, hnb, hexp⟩
    · rintro ⟨hne, hmem, hnb, hexp⟩
      exact ⟨tok.secret, by simpa using hmem, hne, rfl, hnb, hexp⟩
  · intro c hc
    exact verifyWithSecrets_ok_claims now tok _ c hc
  · intro hbad
    refine verifyWithSecrets_error_of_not_usable now tok _ ?_
    rintro ⟨x, hx, hne, rfl, hnb, hexp⟩
    rcases hbad with h0 | ⟨hp, hf⟩ | hexp2 | hnb2
    · exact hne h0
    · rcases List.mem_cons.mp hx with heq | hmem
      · exact hp heq
      · exact hf hmem
    · omega
    · omega

/-- Witness for C3: the rotated configuration still verifies the token
issued under the old secret, and removing the old secret from both primary
and fallback makes verification fail. -/
theorem jwt_verify_rotation_order_witness :
    verifyWalletJWT cfgRot 5 tokW = .ok tokW.claims ∧
    (∃ e, verifyWalletJWT cfgRemoved 5 tokW = .error e) :=
  ⟨(jwt_verify_rotation_order cfgRot 5 tokW).1.mpr (by decide),
   (jwt_verify_rotation_order cfgRemoved 5 tokW).2.2 (by decide)⟩

/-- C4: round trip — with a non-empty primary secret, a token issued for
(u, a) verifies under the unchanged configuration to claims carrying u and
a for as long as the expiry has not elapsed, and fails once it has. -/
theorem jwt_issue_verify_round_trip (cfg : WalletConfig) (now t : Int)
    (u : Nat) (a : String) (tok : SignedToken) (exp : Int)
    (hgen : generateWalletJWT cfg now u a = .ok (tok, exp)) (hle : now ≤ t) :
    (t < exp → ∃ c, verifyWalletJWT cfg t tok = .ok c ∧ c.userID = u ∧
      c.walletAddress = a) ∧
    (exp ≤ t → ∃ e, verifyWalletJWT cfg t tok = .error e) := by
  unfold generateWalletJWT at hgen
  split_ifs at hgen with hsec
  simp only [Except.ok.injEq, Prod.mk.injEq] at hgen
  obtain ⟨htok, hexp⟩ := hgen
  subst htok
  constructor
  · intro hlt
    exact ⟨_, (verifyWithSecrets_ok_iff t _ _).mpr
      ⟨cfg.walletJWTSecret, List.mem_cons_self _ _, hsec, rfl, hle,
        by show t < now + cfg.walletJWTExpireHours * 3600; omega⟩, rfl, rfl⟩
  · intro hge
    rw [verifyWalletJWT]
    refine verifyWithSecrets_error_of_not_usable t _ _ ?_
    rintro ⟨x, hx, -, rfl, -, hbad⟩
    simp only at hbad
    omega

/-- Witness for C4: the concrete issued token verifies before expiry and
fails after it. -/
theorem jwt_issue_verify_round_trip_witness :
    (∃ c, verifyWalletJWT cfgBase 5 tokW = .ok c ∧ c.userID = 7 ∧
      c.walletAddress = addrA) ∧
    (∃ e, verifyWalletJWT cfgBase 9000 tokW = .error e) := by
  have h1 := jwt_issue_verify_round_trip cfgBase 0 5 7 addrA tokW 7200 (by rfl) (by omega)
  have h2 := jwt_issue_verify_round_trip cfgBase 0 9000 7 addrA tokW 7200 (by rfl) (by omega)
  exact ⟨h1.1 (by omega), h2.2 (by omega)⟩

/-! ## Termination of the self-healing account resolution -/

theorem countHolders_clear_le (uid : Nat) (addr : String) :
    ∀ db : List User, countHolders (clearWalletById db uid) addr ≤ countHolders db addr := by
  intro db
  induction db with
  | nil => simp [clearWalletById, countHolders]
  | cons v rest ih =>
    by_cases h : v.id = uid <;> by_cases hv : v.walletAddress = some addr <;>
      simp [clearWalletById, countHolders, h, hv] at ih ⊢ <;> omega

theorem countHolders_clear_lt (uid : Nat) (addr : String) :
    ∀ db : List User, (∃ u ∈ db, u.id = uid ∧ u.walletAddress = some addr) →
      countHolders (clearWalletById db uid) addr < countHolders db addr := by
  intro db
  induction db with
  | nil =>
    rintro ⟨u, hu, -⟩
    exact absurd hu (List.not_mem_nil u)
  | cons v rest ih =>
    rintro ⟨u, hu, hid, haddr⟩
    rcases List.mem_cons.mp hu with rfl | hmem
    · have hle := countHolders_clear_le uid addr rest
      simp [clearWalletById, countHolders, hid, haddr] at hle ⊢
      omega
    · have hlt := ih ⟨u, hmem, hid, haddr⟩
      by_cases h : v.id = uid <;> by_cases hv : v.walletAddress = some addr <;>
        simp [clearWalletById, countHolders, h, hv] at hlt ⊢ <;> omega

/-- C8: the self-healing retry in account resolution terminates.  Clearing a
deleted owner's binding strictly decreases the number of records bound to
the address, so any fuel exceeding that number suffices — in particular the
fuel `findOrCreateWalletUser` runs with — and no account store, including
one with several deleted accounts referencing the same address, can make
resolution recurse forever. -/
theorem resolution_terminates (cfg : WalletConfig) (fu fp addr : String) :
    (∀ (fuel : Nat) (db : List User), countHolders db addr < fuel →
      findOrCreateFuel cfg fu fp fuel db addr ≠ .outOfFuel) ∧
    (∀ db : List User, findOrCreateWalletUser cfg fu fp db addr ≠ .outOfFuel) := by
  have main : ∀ (fuel : Nat) (db : List User), countHolders db addr < fuel →
      findOrCreateFuel cfg fu fp fuel db addr ≠ .outOfFuel := by
    intro fuel
    induction fuel with
    | zero =>
      intro db h
      exact absurd h (Nat.not_lt_zero _)
    | succ n ih =>
      intro db h
      simp only [findOrCreateFuel]
      by_cases ht : isWalletAddressAlreadyTaken db addr = false
      · rw [if_pos ht]
        cases hroot : (if isRootAllowed cfg addr then findRootUser db else none) with
        | some root => simp
        | none =>
          by_cases hauto : cfg.walletAutoRegisterEnabled
          · simp [hauto]
          · simp [hauto]
      · rw [if_neg ht]
        cases hfill : fillUserByWalletAddress db addr with
        | none => simp
        | some u =>
          show (if u.status = UserStatus.deleted then
              findOrCreateFuel cfg fu fp n (clearWalletById db u.id) addr
            else ResolveOutcome.ok u db) ≠ ResolveOutcome.outOfFuel
          by_cases hdel : u.status = .deleted
          · rw [if_pos hdel]
            apply ih
            have hmem : u ∈ db := List.mem_of_find?_eq_some hfill
            have hwa : u.walletAddress = some addr := by
              have := List.find?_some hfill
              simpa using this
            have := countHolders_clear_lt u.id addr db ⟨u, hmem, rfl, hwa⟩
            omega
          · rw [if_neg hdel]
            simp
  exact ⟨main, fun db => main _ db (Nat.lt_succ_self _)⟩

/-- Witness for C8: two deleted accounts reference the same address; the
resolution still returns without running out of fuel. -/
theorem resolution_terminates_witness :
    countHolders dbTwoDeleted addrA < 3 ∧
    findOrCreateFuel cfgBase "wu" "wp" 3 dbTwoDeleted addrA ≠ .outOfFuel ∧
    findOrCreateWalletUser cfgBase "wu" "wp" dbTwoDeleted addrA ≠ .outOfFuel :=
  ⟨by decide,
   (resolution_terminates cfgBase "wu" "wp" addrA).1 3 dbTwoDeleted (by decide),
   (resolution_terminates cfgBase "wu" "wp" addrA).2 dbTwoDeleted⟩

/-! ## Bind policy -/

theorem taken_of_fill (db : List User) (addr : String) (u : User)
    (h : fillUserByWalletAddress db addr = some u) :
    isWalletAddressAlreadyTaken db addr = true := by
  have hmem := List.mem_of_find?_eq_some h
  have hp := List.find?_some h
  simp only [isWalletAddressAlreadyTaken, List.any_eq_true]
  exact ⟨u, hmem, hp⟩

theorem updateUser_clear_fields (db : List User) (exist user : User)
    (addr : String) (v : User)
    (hv : v ∈ updateUser (clearWalletById db exist.id)
        { user with walletAddress := some addr }) :
    (v.id = user.id → v.walletAddress = some addr) ∧
    (exist.id ≠ user.id → v.id = exist.id → v.walletAddress = none) := by
  simp only [updateUser, clearWalletById, List.map_map, List.mem_map,
    Function.comp_apply] at hv
  obtain ⟨w, -, rfl⟩ := hv
  set w1 : User := if w.id = exist.id then { w with walletAddress := none } else w
    with hw1
  by_cases h2 : w1.id = user.id
  · rw [if_pos h2]
    constructor
    · intro _
      rfl
    · intro hne hid
      exact absurd (by simpa using hid.symm) hne
  · rw [if_neg h2]
    constructor
    · intro hid
      exact absurd hid h2
    · intro hne hid
      by_cases h1 : w.id = exist.id
      · simp [hw1, h1]
      · rw [hw1, if_neg h1] at hid
        exact absurd hid h1

/-- C7: for an authenticated bind request for an address already bound to a
different account: if that owner is not deleted and the caller does not
already own the address, the bind fails with AddressAlreadyBound and both
the nonce store and the account store are unchanged; if the owner is
deleted, the stale binding is cleared and the same request succeeds, leaving
the address bound to the caller's account. -/
theorem bind_already_bound_policy (cfg : WalletConfig) (eth : EthCrypto)
    (now : Int) (req : WalletLoginRequest) (m : NonceMap) (db : List User)
    (uid : Nat) (user exist : User)
    (hena : cfg.walletLoginEnabled = true)
    (hver : verifyWalletRequest cfg eth m now req = .ok ())
    (hfill : fillUserById db uid = some user)
    (hexist : fillUserByWalletAddress db (strToLower req.address) = some exist) :
    ((exist.status ≠ .deleted → exist.id ≠ user.id →
        Option.map strToLower user.walletAddress ≠ some (strToLower req.address) →
        walletBind cfg eth now req m db (some uid) = (.alreadyBound, m, db)) ∧
     (exist.status = .deleted →
        walletBind cfg eth now req m db (some uid) =
          (.bound, consumeWalletNonce m (strToLower req.address),
            updateUser (clearWalletById db exist.id)
              { user with walletAddress := some (strToLower req.address) }) ∧
        (∀ v ∈ (walletBind cfg eth now req m db (some uid)).2.2,
          (v.id = user.id → v.walletAddress = some (strToLower req.address)) ∧
          (exist.id ≠ user.id → v.id = exist.id → v.walletAddress = none)))) := by
  have htaken := taken_of_fill db (strToLower req.address) exist hexist
  constructor
  · intro hnd hne hown
    simp [walletBind, hver, hena, hfill, htaken, hexist, hnd, hne, hown]
  · intro hdel
    have hbind : walletBind cfg eth now req m db (some uid) =
        (.bound, consumeWalletNonce m (strToLower req.address),
          updateUser (clearWalletById db exist.id)
            { user with walletAddress := some (strToLower req.address) }) := by
      simp [walletBind, hver, hena, hfill, htaken, hexist, hdel, finishBind]
    refine ⟨hbind, ?_⟩
    intro v hv
    rw [hbind] at hv
    exact updateUser_clear_fields db exist user (strToLower req.address) v hv

/-- Witness for C7: the address is owned by a deleted account; bind clears
the stale binding and succeeds for the caller. -/
theorem bind_already_bound_policy_witness :
    walletBind cfgBase ethA 0 reqA storeA dbBindW (some 1) =
      (.bound, consumeWalletNonce storeA (strToLower reqA.address),
        updateUser (clearWalletById dbBindW userDeletedOwner.id)
          { userCaller with walletAddress := some (strToLower reqA.address) }) ∧
    (∀ v ∈ (walletBind cfgBase ethA 0 reqA storeA dbBindW (some 1)).2.2,
      (v.id = userCaller.id → v.walletAddress = some (strToLower reqA.address)) ∧
      (userDeletedOwner.id ≠ userCaller.id → v.id = userDeletedOwner.id →
        v.walletAddress = none)) :=
  (bind_already_bound_policy cfgBase ethA 0 reqA storeA dbBindW 1 userCaller
    userDeletedOwner rfl (by rfl) (by rfl) (by rfl)).2 rfl

/-! ## Recovery-id normalization -/

theorem set_get_self : ∀ (l : List Nat) (i : Nat) (b : Nat),
    l.get? i = some b → l.set i b = l
  | [], i, b, h => by simp [List.get?] at h
  | x :: xs, 0, b, h => by
    simp only [List.get?, Option.some.injEq] at h
    simp [List.set, h]
  | x :: xs, i+1, b, h => by
    simp only [List.get?] at h
    simp [List.set, set_get_self xs i b h]

/-- C6 (amended): recovery is deterministic — the embedding is a pure
function of message and signature; but the single-byte-flip property fails
at the recovery-id byte: the source folds `v ≥ 27` down by 27 before
recovery, so two signatures differing only in that byte by exactly 27
normalize identically and recover to the same address whatever the curve
backend does.  For changes in the r/s bytes the outcome is decided by the
external curve library, outside this repository's code. -/
theorem recover_deterministic_vnorm (eth : EthCrypto) (msg : String)
    (raw : List Nat) (b : Nat) (hlen : raw.length = 65)
    (hb : raw.get? 64 = some b) (hlt : b < 27) :
    (∀ m2 s2 : String, recoverAddress eth m2 s2 = recoverAddress eth m2 s2) ∧
    recoverRaw eth msg (raw.set 64 (b + 27)) = recoverRaw eth msg raw := by
  refine ⟨fun _ _ => rfl, ?_⟩
  have h64 : (64 : Nat) < raw.length := by omega
  have hfix1 : fixV (raw.set 64 (b + 27)) = raw := by
    unfold fixV
    rw [List.get?_set_eq_of_lt _ h64]
    show (if b + 27 ≥ 27 then (raw.set 64 (b + 27)).set 64 (b + 27 - 27)
      else raw.set 64 (b + 27)) = raw
    rw [if_pos (by omega : b + 27 ≥ 27), List.set_set]
    have hbb : b + 27 - 27 = b := by omega
    rw [hbb]
    exact set_get_self raw 64 b hb
  have hfix2 : fixV raw = raw := by
    unfold fixV
    rw [hb]
    show (if b ≥ 27 then raw.set 64 (b - 27) else raw) = raw
    rw [if_neg (by omega : ¬ b ≥ 27)]
  unfold recoverRaw
  rw [List.length_set, hfix1, hfix2]

/-- Witness for the amended C6 at the all-zero signature. -/
theorem recover_deterministic_vnorm_witness :
    recoverRaw ethStub "hello" (rawV0.set 64 (0 + 27)) = recoverRaw ethStub "hello" rawV0 :=
  (recover_deterministic_vnorm ethStub "hello" rawV0 0 (by decide) (by decide)
    (by decide)).2

/-- C6 counterexample: two 65-byte signatures differing in exactly one byte
(the recovery id, 0x00 vs 0x1b = 27) recover to the same address, because
the code normalizes 27 down to 0 before recovery — flipping a signature
byte does not always change the recovered address. -/
theorem recover_one_byte_same_address_cex :
    hexDecode (un0x sigV0) = some rawV0 ∧
    hexDecode (un0x sigV27) = some rawV27 ∧
    rawV0.length = 65 ∧ rawV27 = rawV0.set 64 27 ∧ rawV0 ≠ rawV27 ∧
    ((List.zip rawV0 rawV27).filter (fun p => decide (p.1 ≠ p.2))).length = 1 ∧
    recoverAddress ethStub "hello" sigV0 = .ok "0xab" ∧
    recoverAddress ethStub "hello" sigV27 = .ok "0xab" :=
  ⟨by decide, by decide, by decide, by decide, by decide, by decide, by rfl,
   by rfl⟩

end RouterWallet
